import Mathlib

/-!
Verification of the data-normalization and aggregation logic of
`nobel_analysis.py` (Nobel Prize data analysis script).

The script is embedded shallowly:

* a pandas `DataFrame` becomes `PTable`, a list of named columns of `Val`
  cells (`Val.null` models `NaN`/`None`; strings and integers are the only
  cell payloads the script's logic distinguishes);
* the normalization phase (column-alias mapping, gender lowercasing,
  name synthesis, the essential-column validation, decade derivation and
  country defaulting) becomes the `pipeline` function returning
  `Except (List String) PTable`, the error carrying the list of missing
  essential columns exactly as the `ValueError` message does;
* the aggregation phase operates on a normalized record list `List Rec`;
  pandas groupby/value_counts/idxmax are embedded as counting, sorting and
  first-maximum selection; exact rational arithmetic (ℚ) replaces floats,
  and index alignment of Series division plus `fillna(0)` is embedded
  explicitly;
* Python's ASCII `str.lower`/`str.strip` and the `str.contains` regex
  search (with `.` as a wildcard for any character except newline) are
  embedded over `List Char`.
-/

namespace Nobel

/-! ## Character/string helpers (Python `str.lower`, `str.strip`) -/

/-- ASCII uppercase/lowercase letter pairs; the fragment of Python's
`str.lower` exercised by the script's data. -/
def upperLowerPairs : List (Char × Char) :=
  [('A','a'), ('B','b'), ('C','c'), ('D','d'), ('E','e'), ('F','f'),
   ('G','g'), ('H','h'), ('I','i'), ('J','j'), ('K','k'), ('L','l'),
   ('M','m'), ('N','n'), ('O','o'), ('P','p'), ('Q','q'), ('R','r'),
   ('S','s'), ('T','t'), ('U','u'), ('V','v'), ('W','w'), ('X','x'),
   ('Y','y'), ('Z','z')]

def lowerChar (c : Char) : Char :=
  match upperLowerPairs.find? (fun p => p.1 == c) with
  | some p => p.2
  | none => c

/-- Embedding of Python `str.lower` (ASCII fragment). -/
def strLower (s : String) : String := ⟨s.data.map lowerChar⟩

/-- Whether `c` is an ASCII uppercase letter. -/
def upperAscii (c : Char) : Bool := upperLowerPairs.any (fun p => p.1 == c)

/-- The string is lowercase: it contains no ASCII uppercase letter. -/
def isLowerStr (s : String) : Bool := s.data.all (fun c => !upperAscii c)

/-- The whitespace characters stripped by Python's `str.strip`. -/
def pyWhitespace : List Char := [' ', '\t', '\n', '\r', '\x0b', '\x0c']

def wsChar (c : Char) : Bool := pyWhitespace.contains c

/-- Embedding of Python `str.strip`. -/
def stripStr (s : String) : String :=
  ⟨((s.data.dropWhile wsChar).reverse.dropWhile wsChar).reverse⟩

/-! ## Tables and cells -/

/-- A cell of the loaded table: a string, an integer, or `NaN`/`None`. -/
inductive Val where
  | str (s : String)
  | int (n : Int)
  | null
deriving DecidableEq, Repr

/-- A pandas DataFrame: named columns of cells (in column order). -/
structure PTable where
  cols : List (String × List Val)
deriving DecidableEq, Repr

def PTable.hasCol (t : PTable) (n : String) : Bool :=
  t.cols.any (fun p => p.1 == n)

def PTable.find? (t : PTable) (n : String) : Option (List Val) :=
  (t.cols.find? (fun p => p.1 == n)).map (fun p => p.2)

/-- Embeds `len(df)`: length of the first column (0 for an empty table). -/
def PTable.nrows (t : PTable) : Nat :=
  match t.cols with
  | [] => 0
  | c :: _ => c.2.length

/-- Embeds `df[n] = v`: replace the column in place if present, else append it. -/
def PTable.setCol (t : PTable) (n : String) (v : List Val) : PTable :=
  if t.hasCol n then ⟨t.cols.map (fun p => if p.1 == n then (n, v) else p)⟩
  else ⟨t.cols ++ [(n, v)]⟩

/-! ## Schema normalization (`map_columns` and lines 52–75 of the script) -/

/-- The static alias table `col_map` of `map_columns`, in source order. -/
def col_map : List (String × List String) :=
  [("year", ["year", "year_award", "awardYear", "Year", "prizeYear"]),
   ("full_name", ["full_name", "name", "laureate_name", "Full Name",
                  "firstname", "surname"]),
   ("sex", ["sex", "gender", "Sex", "Gender"]),
   ("birth_country", ["birth_country", "bornCountry", "country",
                      "birthCountry", "Birth Country", "birth_countryNow"]),
   ("category", ["category", "prize_category", "Category", "discipline"])]

/-- The column assigned to a canonical field: the first alias present in the
raw table wins; if none is present the column is all-null (`mapped[std] =
None` broadcasts `None` over every row). -/
def pickCol (df : PTable) (variants : List String) : List Val :=
  match variants.find? (fun v => df.hasCol v) with
  | some v => (df.find? v).getD []
  | none => List.replicate df.nrows Val.null

/-- Embeds `map_columns`: for each canonical field, in the fixed order of
`col_map`, copy the first matching alias column of the ORIGINAL table
(the loop reads `df.columns`, not the partially mapped table). -/
def map_columns (df : PTable) : PTable :=
  col_map.foldl (fun acc p => acc.setCol p.1 (pickCol df p.2)) df

/-- Embeds `nobel['sex'].str.lower().fillna('unknown')` applied to one cell:
`.str.lower()` lowercases strings and turns any non-string (including
null) into `NaN`, which `fillna` then replaces by `"unknown"`. -/
def sexNormVal : Val → Val
  | .str s => .str (strLower s)
  | _ => .str "unknown"

/-- Lines 55–56: gender normalization (guarded by `'sex' in nobel.columns`,
which is always true after `map_columns`). -/
def sexStep (t : PTable) : PTable :=
  if t.hasCol "sex" then
    t.setCol "sex" (((t.find? "sex").getD []).map sexNormVal)
  else t

/-- Embeds `fillna('')` on a cell, as consumed by string concatenation. -/
def valStrD (v : Val) (d : String) : String :=
  match v with
  | .str s => s
  | _ => d

/-- Embeds `g.fillna('') + ' ' + f.fillna('')` columnwise. -/
def combineNames (g f : List Val) : List Val :=
  List.zipWith (fun a b => Val.str (valStrD a "" ++ " " ++ valStrD b "")) g f

/-- Embeds `.str.strip()` on one cell: strings are stripped, anything else
(null or non-string) becomes `NaN`. -/
def stripVal : Val → Val
  | .str s => .str (stripStr s)
  | _ => .null

/-- Lines 59–62: name synthesis. If `givenName`/`familyName` both exist the
canonical `full_name` is overwritten by their concatenation; otherwise if
`firstname`/`surname` both exist, by theirs; otherwise the table is left
alone. -/
def synthStep (t : PTable) : PTable :=
  if t.hasCol "givenName" && t.hasCol "familyName" then
    t.setCol "full_name"
      (combineNames ((t.find? "givenName").getD [])
        ((t.find? "familyName").getD []))
  else if t.hasCol "firstname" && t.hasCol "surname" then
    t.setCol "full_name"
      (combineNames ((t.find? "firstname").getD [])
        ((t.find? "surname").getD []))
  else t

/-- Lines 59–63: name synthesis followed by the unconditional
`nobel['full_name'].str.strip()`. -/
def nameStep (t : PTable) : PTable :=
  (synthStep t).setCol "full_name"
    ((((synthStep t).find? "full_name").getD []).map stripVal)

/-- The five essential canonical columns (line 66). -/
def essential : List String :=
  ["year", "full_name", "sex", "birth_country", "category"]

/-- Embeds `col.isna().all()`. -/
def allNull (col : List Val) : Bool := col.all (fun v => v == Val.null)

/-- Embeds `c not in nobel.columns or nobel[c].isna().all()`. -/
def allNullCol (t : PTable) (c : String) : Bool :=
  match t.find? c with
  | none => true
  | some col => allNull col

/-- Line 67: the list of missing-or-empty essential columns. -/
def missingOf (t : PTable) : List String :=
  essential.filter (fun c => allNullCol t c)

/-- Embeds `(nobel['year'] // 10) * 10` on one cell; `//` on integers is floor
division, and a non-integer cell (null in an all-null column) stays null. -/
def decadeVal : Val → Val
  | .int n => .int (Int.fdiv n 10 * 10)
  | _ => .null

/-- Line 74: decade derivation. -/
def decadeStep (t : PTable) : PTable :=
  t.setCol "decade" (((t.find? "year").getD []).map decadeVal)

/-- Embeds `fillna('Unknown').astype(str)` on one cell. -/
def countryNormVal : Val → Val
  | .str s => .str s
  | .int n => .str (toString n)
  | .null => .str "Unknown"

/-- Line 75: birth-country defaulting. -/
def countryStep (t : PTable) : PTable :=
  t.setCol "birth_country"
    (((t.find? "birth_country").getD []).map countryNormVal)

/-- The state of the table at the essential-column check (line 67): after
column mapping, gender normalization and name synthesis. -/
def normStage (df : PTable) : PTable := nameStep (sexStep (map_columns df))

/-- Lines 52–75: the whole normalization phase. A nonempty missing-column
list raises `ValueError(f"Missing or empty columns: {missing}")`, embedded
as `Except.error missing`; otherwise preprocessing completes and the
normalized table is returned. -/
def pipeline (df : PTable) : Except (List String) PTable :=
  if (missingOf (normStage df)).isEmpty then
    Except.ok (countryStep (decadeStep (normStage df)))
  else Except.error (missingOf (normStage df))

/-! ## Normalized records and generic aggregation helpers -/

/-- One normalized record, as consumed by the aggregation queries. -/
structure Rec where
  year : Int
  full_name : String
  sex : String
  birth_country : String
  category : String
  decade : Int
deriving DecidableEq, Repr

def countRec (p : Rec → Bool) (ds : List Rec) : Nat := (ds.filter p).length

/-- Embeds `Series.unique()`: distinct values in order of first occurrence.
`uniqueFirst (x :: xs)` keeps `x` and removes every later duplicate. -/
def uniqueFirst {α : Type} [DecidableEq α] : List α → List α
  | [] => []
  | x :: xs => x :: (uniqueFirst xs).filter (fun y => y != x)

/-- Insert into a sorted list (used to embed `sorted`, `sort_values` and
the sorted group keys produced by `groupby`). -/
def insertLe {α : Type} (le : α → α → Bool) (x : α) : List α → List α
  | [] => [x]
  | y :: ys => if le x y then x :: y :: ys else y :: insertLe le x ys

def sortByLe {α : Type} (le : α → α → Bool) : List α → List α
  | [] => []
  | x :: xs => insertLe le x (sortByLe le xs)

/-- Embeds the `Series.idxmax` scan: left to right keeping the current maximum,
replacing it only on strict improvement (so the FIRST maximum wins). -/
def pickMaxBy {α : Type} (lt : α → α → Bool) : α → List α → α
  | b, [] => b
  | b, y :: ys => pickMaxBy lt (if lt b y then y else b) ys

def argmaxBy {α β : Type} (lt : β → β → Bool) (f : α → β) :
    List α → Option α
  | [] => none
  | x :: xs => some (pickMaxBy (fun a b => lt (f a) (f b)) x xs)

/-- Comparison of the ratios `p.1/p.2 < q.1/q.2` by cross-multiplication
(exact, and faithful to the float comparison for the dataset sizes at
hand). -/
def ratioLt (p q : Nat × Nat) : Bool := p.1 * q.2 < q.1 * p.2

/-- The rational value of a count pair. -/
def ratioQ (p : Nat × Nat) : ℚ := (p.1 : ℚ) / (p.2 : ℚ)

/-! ## Question 2: USA-born ratio by decade (lines 98–115) -/

/-- One regex position match of `.` (any character except newline). -/
def dotMatch (c : Char) : Bool := c != '\n'

/-- The `U.S.A.` branch of the pattern matching at the head of `l`. -/
def usaDotPat : List Char → Bool
  | c0 :: c1 :: c2 :: c3 :: c4 :: c5 :: _ =>
      c0 == 'u' && dotMatch c1 && c2 == 's' && dotMatch c3 &&
        c4 == 'a' && dotMatch c5
  | _ => false

/-- The regex `United States|USA|America|U.S.A.` matching at the head of
the (already lowercased) character list. -/
def usaRegexAt (l : List Char) : Bool :=
  ("united states".data.isPrefixOf l) || ("usa".data.isPrefixOf l) ||
    ("america".data.isPrefixOf l) || usaDotPat l

/-- Embeds `re.search`: the pattern matches at some position. -/
def usaSearch : List Char → Bool
  | [] => false
  | c :: t => usaRegexAt (c :: t) || usaSearch t

/-- Line 100: `nobel['birth_country'].str.contains('United
States|USA|America|U.S.A.', case=False, na=False)` for one value. -/
def usaBorn (s : String) : Bool := usaSearch (strLower s).data

/-- Literal substring containment, case-insensitively (both sides
lowercased). -/
def occursIn (pat : List Char) : List Char → Bool
  | [] => pat.isEmpty
  | c :: t => pat.isPrefixOf (c :: t) || occursIn pat t

def containsCI (s pat : String) : Bool := occursIn pat.data (strLower s).data

/-- Modelled from the spec's words for comparison with `usaBorn` (the
refinement the claim asserts): the value case-insensitively contains one
of the LITERAL substrings `United States`, `USA`, `America`, `U.S.A.`. -/
def specUsaBorn (s : String) : Bool :=
  containsCI s "united states" || containsCI s "usa" ||
    containsCI s "america" || containsCI s "u.s.a."

def usaRecs (ds : List Rec) : List Rec :=
  ds.filter (fun r => usaBorn r.birth_country)

def decTotal (ds : List Rec) (d : Int) : Nat :=
  countRec (fun r => r.decade == d) ds

def decUsa (ds : List Rec) (d : Int) : Nat :=
  countRec (fun r => usaBorn r.birth_country && r.decade == d) ds

/-- The decades present in the dataset, ascending (`groupby` sorts its
keys; the index of `usa_ratio` is the union of the two group indexes,
which is the full set of present decades). -/
def decadesOf (ds : List Rec) : List Int :=
  sortByLe (fun a b => decide (a ≤ b)) (uniqueFirst (ds.map (fun r => r.decade)))

def usaPair (ds : List Rec) (d : Int) : Nat × Nat := (decUsa ds d, decTotal ds d)

/-- The value of `usa_ratio` at a present decade: Series division aligns
the two indexes, a decade absent from the USA index (zero USA-born
records there) yields `NaN`, and `fillna(0)` turns that into `0`. -/
def usaRatioQ (ds : List Rec) (d : Int) : ℚ :=
  if decUsa ds d = 0 then 0
  else (decUsa ds d : ℚ) / (decTotal ds d : ℚ)

/-- Lines 105–115: `max_decade_usa` is `None` when no USA-born records
exist; otherwise `int(usa_ratio.idxmax())`. -/
def maxDecadeUsa (ds : List Rec) : Option Int :=
  if (usaRecs ds).isEmpty then none
  else argmaxBy ratioLt (usaPair ds) (decadesOf ds)

/-! ## Question 3: female proportion by decade and category (131–152) -/

def femaleRecs (ds : List Rec) : List Rec :=
  ds.filter (fun r => r.sex == "female")

def pairCount (ds : List Rec) (d : Int) (c : String) : Nat :=
  countRec (fun r => r.decade == d && r.category == c) ds

def femCount (ds : List Rec) (d : Int) (c : String) : Nat :=
  countRec (fun r => r.sex == "female" && r.decade == d && r.category == c) ds

/-- The index of `female_group`: the (decade, category) pairs of the
female subset. -/
def femIndex (ds : List Rec) : List (Int × String) :=
  uniqueFirst ((femaleRecs ds).map (fun r => (r.decade, r.category)))

/-- Lexicographic comparison of strings by code point (how the sorted
MultiIndex orders category labels). -/
def charListLe : List Char → List Char → Bool
  | [], _ => true
  | _ :: _, [] => false
  | a :: as, b :: bs => if a = b then charListLe as bs else decide (a < b)

def strLe (s t : String) : Bool := charListLe s.data t.data

/-- Lexicographic order on (decade, category) MultiIndex keys. -/
def pairLe (p q : Int × String) : Bool :=
  decide (p.1 < q.1) || (p.1 == q.1 && strLe p.2 q.2)

/-- The index of `prop = (female_group / total_group).fillna(0)`: the
union of the two group indexes; since the female subset's pairs are a
subset of all pairs, that is the set of pairs with at least one record,
in sorted MultiIndex order. -/
def propIndexOf (ds : List Rec) : List (Int × String) :=
  sortByLe pairLe (uniqueFirst (ds.map (fun r => (r.decade, r.category))))

/-- The value of `prop` at a pair of its index: the aligned division gives
`NaN` exactly at pairs absent from the female index, which `fillna(0)`
turns into `0`. -/
def propQ (ds : List Rec) (p : Int × String) : ℚ :=
  if (femIndex ds).contains p then
    (femCount ds p.1 p.2 : ℚ) / (pairCount ds p.1 p.2 : ℚ)
  else 0

/-- The count pair underlying `propQ`, used by the idxmax scan. -/
def propPair (ds : List Rec) (p : Int × String) : Nat × Nat :=
  (if (femIndex ds).contains p then femCount ds p.1 p.2 else 0,
   pairCount ds p.1 p.2)

/-- Lines 135–149: the reported (decade, category) pair; the sentinel
branch taken when no female records exist is modelled as `none`. -/
def maxFemalePair (ds : List Rec) : Option (Int × String) :=
  if (femaleRecs ds).isEmpty then none
  else argmaxBy ratioLt (propPair ds) (propIndexOf ds)

def uniqueDecades (ds : List Rec) : List Int :=
  uniqueFirst (ds.map (fun r => r.decade))

def uniqueCats (ds : List Rec) : List String :=
  uniqueFirst (ds.map (fun r => r.category))

/-- Lines 139 and 152: the heatmap matrix `prop_df`. With no female
records: `pd.DataFrame(columns=unique categories, index=unique
decades).fillna(0)`, an all-zero matrix. Otherwise `prop.unstack()
.fillna(0)`: rows the sorted present decades, columns the sorted present
categories, absent pairs filled with 0. -/
def propDF (ds : List Rec) : List (List ℚ) :=
  if (femaleRecs ds).isEmpty then
    (uniqueDecades ds).map (fun _ => (uniqueCats ds).map (fun _ => (0 : ℚ)))
  else
    (sortByLe (fun a b => decide (a ≤ b)) (uniqueDecades ds)).map (fun d =>
      (sortByLe strLe (uniqueCats ds)).map (fun c =>
        if (propIndexOf ds).contains (d, c) then propQ ds (d, c) else 0))

/-! ## Question 4: first woman (lines 164–172) -/

/-- Embeds `female_winners.sort_values('year').iloc[0]` with the `"Unknown"`
sentinels for an empty female subset. -/
def firstWoman (ds : List Rec) : String × String :=
  match sortByLe (fun a b => decide (a.year ≤ b.year)) (femaleRecs ds) with
  | [] => ("Unknown", "Unknown")
  | r :: _ => (r.full_name, r.category)

/-! ## Question 5: repeat winners (lines 174–183) -/

def namesOf (ds : List Rec) : List String := ds.map (fun r => r.full_name)

def countName (ds : List Rec) (n : String) : Nat :=
  countRec (fun r => r.full_name == n) ds

/-- Embeds the `value_counts()` entries before sorting: distinct names in first-seen
order with their frequencies. -/
def nameCounts (ds : List Rec) : List (String × Nat) :=
  (uniqueFirst (namesOf ds)).map (fun n => (n, countName ds n))

/-- Embeds `value_counts()`: frequencies in descending order. -/
def valueCountsDesc (ds : List Rec) : List (String × Nat) :=
  sortByLe (fun p q => decide (q.2 ≤ p.2)) (nameCounts ds)

/-- Embeds `repeat_counts[repeat_counts > 1].index.tolist()`. -/
def repeatList (ds : List Rec) : List String :=
  ((valueCountsDesc ds).filter (fun p => decide (1 < p.2))).map (fun p => p.1)

def winnerRecs (ds : List Rec) (n : String) : List Rec :=
  ds.filter (fun r => r.full_name == n)

/-- The category column of one winner's records (before `.unique()`). -/
def rawCatsOf (ds : List Rec) (n : String) : List String :=
  (winnerRecs ds n).map (fun r => r.category)

/-- Embeds `nobel[nobel['full_name'] == name]['category'].unique()`. -/
def catsOf (ds : List Rec) (n : String) : List String :=
  uniqueFirst (rawCatsOf ds n)

/-- Embeds `sorted(nobel[nobel['full_name'] == name]['year'].tolist())`. -/
def yearsOf (ds : List Rec) (n : String) : List Int :=
  sortByLe (fun a b => decide (a ≤ b)) ((winnerRecs ds n).map (fun r => r.year))

/-! ## Lemmas: lowercasing -/

theorem upperAscii_lowerChar (c : Char) : upperAscii (lowerChar c) = false := by
  unfold lowerChar
  cases hf : upperLowerPairs.find? (fun p => p.1 == c) with
  | none =>
    have h := List.find?_eq_none.mp hf
    apply Bool.eq_false_iff.mpr
    intro hcontra
    rw [upperAscii, List.any_eq_true] at hcontra
    obtain ⟨p, hp, hpc⟩ := hcontra
    exact h p hp hpc
  | some p =>
    have hp : p ∈ upperLowerPairs := List.mem_of_find?_eq_some hf
    fin_cases hp <;> rfl

theorem isLowerStr_strLower (s : String) : isLowerStr (strLower s) = true := by
  rw [isLowerStr, strLower, List.all_eq_true]
  intro c hc
  obtain ⟨d, _, hd⟩ := List.mem_map.mp hc
  rw [← hd, upperAscii_lowerChar]
  rfl

/-! ## Lemmas: tables -/

/-- The column replacement performed by `setCol` on an existing column. -/
def setEntry (n : String) (v : List Val) (p : String × List Val) :
    String × List Val :=
  if p.1 == n then (n, v) else p

theorem find?_map_setEntry (n m : String) (v : List Val)
    (cols : List (String × List Val)) (h : m ≠ n) :
    List.find? (fun p => p.1 == m) (cols.map (setEntry n v)) =
      Option.map (setEntry n v) (List.find? (fun p => p.1 == m) cols) := by
  induction cols with
  | nil => rfl
  | cons q qs ih =>
    by_cases hq : (q.1 == n) = true
    · have hq1 : q.1 = n := beq_iff_eq.mp hq
      have hqm : (q.1 == m) = false := by
        apply beq_false_of_ne
        rw [hq1]
        exact Ne.symm h
      have henm : ((setEntry n v q).1 == m) = false := by
        rw [setEntry, if_pos hq]
        exact beq_false_of_ne (Ne.symm h)
      simp only [List.map_cons, List.find?_cons, henm, hqm, ih]
    · have hent : setEntry n v q = q := by rw [setEntry, if_neg hq]
      by_cases hm : (q.1 == m) = true
      · simp only [List.map_cons, List.find?_cons, hent, hm, Option.map_some']
      · simp only [List.map_cons, List.find?_cons, hent, hm, ih]

theorem find?_map_setEntry_self (n : String) (v : List Val)
    (cols : List (String × List Val))
    (h : cols.any (fun p => p.1 == n) = true) :
    List.find? (fun p => p.1 == n) (cols.map (setEntry n v)) = some (n, v) := by
  induction cols with
  | nil => simp at h
  | cons q qs ih =>
    by_cases hq : (q.1 == n) = true
    · have : setEntry n v q = (n, v) := by rw [setEntry, if_pos hq]
      simp only [List.map_cons, List.find?_cons, this]
      simp
    · have hent : setEntry n v q = q := by rw [setEntry, if_neg hq]
      have hqs : qs.any (fun p => p.1 == n) = true := by
        rcases (List.any_eq_true.mp h) with ⟨p, hp, hpn⟩
        rcases List.mem_cons.mp hp with h1 | h1
        · exact absurd (h1 ▸ hpn) (by simp [hq])
        · exact List.any_eq_true.mpr ⟨p, h1, hpn⟩
      simp only [List.map_cons, List.find?_cons, hent, hq, cond_false, ih hqs]

theorem find?_setCol_self (t : PTable) (n : String) (v : List Val) :
    (t.setCol n v).find? n = some v := by
  rw [PTable.setCol]
  by_cases h : t.hasCol n = true
  · rw [if_pos h, PTable.find?]
    show Option.map _ (List.find? _ (t.cols.map (setEntry n v))) = _
    rw [find?_map_setEntry_self n v t.cols h]
    rfl
  · rw [if_neg h, PTable.find?]
    show Option.map _ (List.find? _ (t.cols ++ [(n, v)])) = _
    rw [List.find?_append]
    have hnone : List.find? (fun p => p.1 == n) t.cols = none := by
      rw [List.find?_eq_none]
      intro p hp hpn
      rw [PTable.hasCol] at h
      exact h (List.any_eq_true.mpr ⟨p, hp, hpn⟩)
    rw [hnone]
    simp [List.find?]

theorem find?_setCol_ne (t : PTable) (n m : String) (v : List Val)
    (h : m ≠ n) : (t.setCol n v).find? m = t.find? m := by
  rw [PTable.setCol]
  by_cases hc : t.hasCol n = true
  · rw [if_pos hc, PTable.find?, PTable.find?]
    show Option.map _ (List.find? _ (t.cols.map (setEntry n v))) = _
    rw [find?_map_setEntry n m v t.cols h]
    cases hfind : List.find? (fun p => p.1 == m) t.cols with
    | none => rfl
    | some p =>
      have hp := List.find?_some hfind
      have hpn : (p.1 == n) = false := by
        apply beq_false_of_ne
        intro hcon
        exact h (((beq_iff_eq.mp hp).symm.trans hcon))
      simp [setEntry, hpn]
  · rw [if_neg hc, PTable.find?, PTable.find?]
    show Option.map _ (List.find? _ (t.cols ++ [(n, v)])) = _
    rw [List.find?_append]
    have : List.find? (fun p => p.1 == m) [(n, v)] = none := by
      simp [List.find?, beq_false_of_ne (Ne.symm h)]
    rw [this]
    cases List.find? (fun p => p.1 == m) t.cols <;> rfl

theorem any_name_map_setEntry (n m : String) (v : List Val)
    (cols : List (String × List Val)) :
    (cols.map (setEntry n v)).any (fun p => p.1 == m) =
      cols.any (fun p => p.1 == m) := by
  induction cols with
  | nil => rfl
  | cons q qs ih =>
    simp only [List.map_cons, List.any_cons, ih]
    congr 1
    rw [setEntry]
    by_cases hp : (q.1 == n) = true
    · rw [if_pos hp]
      show (n == m) = (q.1 == m)
      rw [beq_iff_eq.mp hp]
    · rw [if_neg hp]

theorem hasCol_setCol_ne (t : PTable) (n m : String) (v : List Val)
    (h : m ≠ n) : (t.setCol n v).hasCol m = t.hasCol m := by
  rw [PTable.setCol]
  by_cases hc : t.hasCol n = true
  · rw [if_pos hc, PTable.hasCol, PTable.hasCol]
    exact any_name_map_setEntry n m v t.cols
  · rw [if_neg hc, PTable.hasCol, PTable.hasCol]
    show List.any (t.cols ++ [(n, v)]) _ = _
    rw [List.any_append]
    have : List.any [(n, v)] (fun p => p.1 == m) = false := by
      simp [beq_false_of_ne (Ne.symm h)]
    rw [this, Bool.or_false]

theorem hasCol_of_find? (t : PTable) (n : String) (col : List Val)
    (h : t.find? n = some col) : t.hasCol n = true := by
  rw [PTable.find?] at h
  cases hfind : List.find? (fun p => p.1 == n) t.cols with
  | none => rw [hfind] at h; exact absurd h (by simp)
  | some p =>
    rw [PTable.hasCol, List.any_eq_true]
    have hp := List.find?_some hfind
    exact ⟨p, List.mem_of_find?_eq_some hfind, hp⟩

theorem find?_of_hasCol (t : PTable) (n : String) (h : t.hasCol n = true) :
    ∃ col, t.find? n = some col := by
  rw [PTable.hasCol, List.any_eq_true] at h
  obtain ⟨p, hp, hpn⟩ := h
  have hsome : (List.find? (fun p => p.1 == n) t.cols).isSome = true := by
    rw [List.find?_isSome]
    exact ⟨p, hp, hpn⟩
  obtain ⟨q, hq⟩ := Option.isSome_iff_exists.mp hsome
  exact ⟨q.2, by rw [PTable.find?, hq]; rfl⟩

/-! ## Lemmas: the normalization stages -/

theorem map_columns_eq (df : PTable) :
    map_columns df =
      ((((df.setCol "year"
            (pickCol df ["year", "year_award", "awardYear", "Year",
              "prizeYear"])).setCol
          "full_name"
            (pickCol df ["full_name", "name", "laureate_name", "Full Name",
              "firstname", "surname"])).setCol
        "sex" (pickCol df ["sex", "gender", "Sex", "Gender"])).setCol
        "birth_country"
          (pickCol df ["birth_country", "bornCountry", "country",
            "birthCountry", "Birth Country", "birth_countryNow"])).setCol
        "category"
          (pickCol df ["category", "prize_category", "Category",
            "discipline"]) := rfl

theorem find?_mc_year (df : PTable) :
    (map_columns df).find? "year" =
      some (pickCol df ["year", "year_award", "awardYear", "Year",
        "prizeYear"]) := by
  rw [map_columns_eq,
    find?_setCol_ne _ _ _ _ (by decide), find?_setCol_ne _ _ _ _ (by decide),
    find?_setCol_ne _ _ _ _ (by decide), find?_setCol_ne _ _ _ _ (by decide)]
  exact find?_setCol_self _ _ _

theorem find?_mc_full_name (df : PTable) :
    (map_columns df).find? "full_name" =
      some (pickCol df ["full_name", "name", "laureate_name", "Full Name",
        "firstname", "surname"]) := by
  rw [map_columns_eq,
    find?_setCol_ne _ _ _ _ (by decide), find?_setCol_ne _ _ _ _ (by decide),
    find?_setCol_ne _ _ _ _ (by decide)]
  exact find?_setCol_self _ _ _

theorem find?_mc_sex (df : PTable) :
    (map_columns df).find? "sex" =
      some (pickCol df ["sex", "gender", "Sex", "Gender"]) := by
  rw [map_columns_eq,
    find?_setCol_ne _ _ _ _ (by decide), find?_setCol_ne _ _ _ _ (by decide)]
  exact find?_setCol_self _ _ _

theorem find?_mc_birth_country (df : PTable) :
    (map_columns df).find? "birth_country" =
      some (pickCol df ["birth_country", "bornCountry", "country",
        "birthCountry", "Birth Country", "birth_countryNow"]) := by
  rw [map_columns_eq, find?_setCol_ne _ _ _ _ (by decide)]
  exact find?_setCol_self _ _ _

theorem find?_mc_category (df : PTable) :
    (map_columns df).find? "category" =
      some (pickCol df ["category", "prize_category", "Category",
        "discipline"]) := by
  rw [map_columns_eq]
  exact find?_setCol_self _ _ _

theorem hasCol_mc_other (df : PTable) (m : String) (h1 : m ≠ "year")
    (h2 : m ≠ "full_name") (h3 : m ≠ "sex") (h4 : m ≠ "birth_country")
    (h5 : m ≠ "category") : (map_columns df).hasCol m = df.hasCol m := by
  rw [map_columns_eq, hasCol_setCol_ne _ _ _ _ h5, hasCol_setCol_ne _ _ _ _ h4,
    hasCol_setCol_ne _ _ _ _ h3, hasCol_setCol_ne _ _ _ _ h2,
    hasCol_setCol_ne _ _ _ _ h1]

theorem find?_mc_other (df : PTable) (m : String) (h1 : m ≠ "year")
    (h2 : m ≠ "full_name") (h3 : m ≠ "sex") (h4 : m ≠ "birth_country")
    (h5 : m ≠ "category") : (map_columns df).find? m = df.find? m := by
  rw [map_columns_eq, find?_setCol_ne _ _ _ _ h5, find?_setCol_ne _ _ _ _ h4,
    find?_setCol_ne _ _ _ _ h3, find?_setCol_ne _ _ _ _ h2,
    find?_setCol_ne _ _ _ _ h1]

theorem find?_sexStep_sex (t : PTable) (h : t.hasCol "sex" = true) :
    (sexStep t).find? "sex" =
      some (((t.find? "sex").getD []).map sexNormVal) := by
  rw [sexStep, if_pos h]
  exact find?_setCol_self _ _ _

theorem find?_sexStep_ne (t : PTable) (m : String) (h : m ≠ "sex") :
    (sexStep t).find? m = t.find? m := by
  rw [sexStep]
  split_ifs with hs
  · exact find?_setCol_ne _ _ _ _ h
  · rfl

theorem hasCol_sexStep_ne (t : PTable) (m : String) (h : m ≠ "sex") :
    (sexStep t).hasCol m = t.hasCol m := by
  rw [sexStep]
  split_ifs with hs
  · exact hasCol_setCol_ne _ _ _ _ h
  · rfl

theorem find?_synthStep_ne (t : PTable) (m : String) (h : m ≠ "full_name") :
    (synthStep t).find? m = t.find? m := by
  rw [synthStep]
  split_ifs with h1 h2
  · exact find?_setCol_ne _ _ _ _ h
  · exact find?_setCol_ne _ _ _ _ h
  · rfl

theorem find?_nameStep_ne (t : PTable) (m : String) (h : m ≠ "full_name") :
    (nameStep t).find? m = t.find? m := by
  rw [nameStep, find?_setCol_ne _ _ _ _ h, find?_synthStep_ne t m h]

/-- The full_name column contents after name synthesis, before stripping. -/
def nameBase (t : PTable) : List Val :=
  if t.hasCol "givenName" && t.hasCol "familyName" then
    combineNames ((t.find? "givenName").getD [])
      ((t.find? "familyName").getD [])
  else if t.hasCol "firstname" && t.hasCol "surname" then
    combineNames ((t.find? "firstname").getD [])
      ((t.find? "surname").getD [])
  else (t.find? "full_name").getD []

theorem getD_synthStep_full (t : PTable) :
    ((synthStep t).find? "full_name").getD [] = nameBase t := by
  rw [synthStep, nameBase]
  split_ifs with h1 h2
  · rw [find?_setCol_self]; rfl
  · rw [find?_setCol_self]; rfl
  · rfl

theorem find?_nameStep_full (t : PTable) :
    (nameStep t).find? "full_name" = some ((nameBase t).map stripVal) := by
  rw [nameStep, find?_setCol_self, getD_synthStep_full]

theorem find?_decadeStep_ne (t : PTable) (m : String) (h : m ≠ "decade") :
    (decadeStep t).find? m = t.find? m := by
  rw [decadeStep]
  exact find?_setCol_ne _ _ _ _ h

theorem find?_decadeStep_decade (t : PTable) :
    (decadeStep t).find? "decade" =
      some (((t.find? "year").getD []).map decadeVal) := by
  rw [decadeStep]
  exact find?_setCol_self _ _ _

theorem find?_countryStep_ne (t : PTable) (m : String)
    (h : m ≠ "birth_country") : (countryStep t).find? m = t.find? m := by
  rw [countryStep]
  exact find?_setCol_ne _ _ _ _ h

theorem find?_countryStep_bc (t : PTable) :
    (countryStep t).find? "birth_country" =
      some (((t.find? "birth_country").getD []).map countryNormVal) := by
  rw [countryStep]
  exact find?_setCol_self _ _ _

theorem pipeline_of_missing (df : PTable)
    (h : missingOf (normStage df) ≠ []) :
    pipeline df = Except.error (missingOf (normStage df)) := by
  unfold pipeline
  rw [if_neg]
  intro hcon
  exact h (List.isEmpty_iff.mp hcon)

theorem pipeline_of_complete (df : PTable)
    (h : missingOf (normStage df) = []) :
    pipeline df = Except.ok (countryStep (decadeStep (normStage df))) := by
  unfold pipeline
  rw [if_pos]
  rw [h]
  rfl

theorem pipeline_ok_inv (df : PTable) (t : PTable)
    (h : pipeline df = Except.ok t) :
    t = countryStep (decadeStep (normStage df)) ∧
      missingOf (normStage df) = [] := by
  by_cases hm : (missingOf (normStage df)).isEmpty = true
  · have hp : pipeline df =
        Except.ok (countryStep (decadeStep (normStage df))) :=
      pipeline_of_complete df (List.isEmpty_iff.mp hm)
    rw [hp] at h
    injection h with h1
    exact ⟨h1.symm, List.isEmpty_iff.mp hm⟩
  · have hp : pipeline df = Except.error (missingOf (normStage df)) := by
      apply pipeline_of_missing
      intro hcon
      exact hm (by rw [hcon]; rfl)
    rw [hp] at h
    exact Except.noConfusion h

/-! ## Lemmas: `uniqueFirst` -/

theorem mem_uniqueFirst {α : Type} [DecidableEq α] (a : α) :
    ∀ l : List α, a ∈ uniqueFirst l ↔ a ∈ l
  | [] => Iff.rfl
  | x :: xs => by
    rw [uniqueFirst]
    constructor
    · intro h
      rcases List.mem_cons.mp h with h1 | h1
      · exact h1 ▸ List.mem_cons_self x xs
      · have hm := List.mem_filter.mp h1
        exact List.mem_cons_of_mem x ((mem_uniqueFirst a xs).mp hm.1)
    · intro h
      rcases List.mem_cons.mp h with h1 | h1
      · exact h1 ▸ List.mem_cons_self _ _
      · by_cases hax : a = x
        · exact hax ▸ List.mem_cons_self _ _
        · apply List.mem_cons_of_mem
          apply List.mem_filter.mpr
          exact ⟨(mem_uniqueFirst a xs).mpr h1, by simpa using hax⟩

theorem nodup_uniqueFirst {α : Type} [DecidableEq α] :
    ∀ l : List α, (uniqueFirst l).Nodup
  | [] => List.nodup_nil
  | x :: xs => by
    rw [uniqueFirst]
    refine List.nodup_cons.mpr ⟨?_, (nodup_uniqueFirst xs).filter _⟩
    intro hmem
    have hm := List.mem_filter.mp hmem
    simp at hm

theorem sublist_uniqueFirst {α : Type} [DecidableEq α] :
    ∀ l : List α, (uniqueFirst l).Sublist l
  | [] => List.Sublist.refl []
  | x :: xs => by
    rw [uniqueFirst]
    exact List.Sublist.cons₂ x
      ((List.filter_sublist _).trans (sublist_uniqueFirst xs))

theorem pairwise_idx_uniqueFirst {α : Type} [DecidableEq α] :
    ∀ l : List α,
      (uniqueFirst l).Pairwise (fun a b => l.indexOf a < l.indexOf b)
  | [] => List.Pairwise.nil
  | x :: xs => by
    rw [uniqueFirst]
    refine List.Pairwise.cons ?_ ?_
    · intro b hb
      have hmem := List.mem_filter.mp hb
      have hbne : b ≠ x := by simpa using hmem.2
      rw [List.indexOf_cons_self, List.indexOf_cons_ne _ (Ne.symm hbne)]
      exact Nat.succ_pos _
    · have hpw := (pairwise_idx_uniqueFirst xs).filter (fun y => y != x)
      refine hpw.imp_of_mem ?_
      intro a b ha hb hr
      have hane : a ≠ x := by simpa using (List.mem_filter.mp ha).2
      have hbne : b ≠ x := by simpa using (List.mem_filter.mp hb).2
      rw [List.indexOf_cons_ne _ (Ne.symm hane),
        List.indexOf_cons_ne _ (Ne.symm hbne)]
      exact Nat.succ_lt_succ hr

/-! ## Lemmas: insertion sort -/

theorem bor_elim {a b : Bool} (h : (a || b) = true) : a = true ∨ b = true := by
  simpa using h

theorem bor_left {a b : Bool} (h : a = true) : (a || b) = true := by simp [h]

theorem bor_right {a b : Bool} (h : b = true) : (a || b) = true := by simp [h]

theorem band_elim {a b : Bool} (h : (a && b) = true) :
    a = true ∧ b = true := by simpa using h

theorem mem_insertLe {α : Type} (le : α → α → Bool) (x a : α) :
    ∀ l : List α, a ∈ insertLe le x l ↔ a = x ∨ a ∈ l
  | [] => by simp [insertLe]
  | y :: ys => by
    rw [insertLe]
    split_ifs with h
    · simp [List.mem_cons]
    · rw [List.mem_cons, mem_insertLe le x a ys, List.mem_cons]
      tauto

theorem mem_sortByLe {α : Type} (le : α → α → Bool) (a : α) :
    ∀ l : List α, a ∈ sortByLe le l ↔ a ∈ l
  | [] => Iff.rfl
  | x :: xs => by
    rw [sortByLe, mem_insertLe, mem_sortByLe le a xs, List.mem_cons]

theorem perm_insertLe {α : Type} (le : α → α → Bool) (x : α) :
    ∀ l : List α, (insertLe le x l).Perm (x :: l)
  | [] => List.Perm.refl _
  | y :: ys => by
    rw [insertLe]
    split_ifs with h
    · exact List.Perm.refl _
    · exact ((perm_insertLe le x ys).cons y).trans (List.Perm.swap x y ys)

theorem perm_sortByLe {α : Type} (le : α → α → Bool) :
    ∀ l : List α, (sortByLe le l).Perm l
  | [] => List.Perm.refl _
  | x :: xs =>
    (perm_insertLe le x (sortByLe le xs)).trans ((perm_sortByLe le xs).cons x)

theorem pairwise_insertLe {α : Type} (le : α → α → Bool)
    (htot : ∀ a b, (le a b || le b a) = true)
    (htrans : ∀ a b c, le a b = true → le b c = true → le a c = true)
    (x : α) : ∀ l : List α, l.Pairwise (fun a b => le a b = true) →
      (insertLe le x l).Pairwise (fun a b => le a b = true)
  | [], _ => by simp [insertLe]
  | y :: ys, hp => by
    rw [insertLe]
    obtain ⟨hy, hys⟩ := List.pairwise_cons.mp hp
    split_ifs with h
    · refine List.Pairwise.cons ?_ hp
      intro b hb
      rcases List.mem_cons.mp hb with h1 | h1
      · exact h1 ▸ h
      · exact htrans x y b h (hy b h1)
    · refine List.Pairwise.cons ?_ (pairwise_insertLe le htot htrans x ys hys)
      intro b hb
      rcases (mem_insertLe le x b ys).mp hb with h1 | h1
      · subst h1
        rcases bor_elim (htot y b) with h2 | h2
        · exact h2
        · exact absurd h2 h
      · exact hy b h1

theorem pairwise_sortByLe {α : Type} (le : α → α → Bool)
    (htot : ∀ a b, (le a b || le b a) = true)
    (htrans : ∀ a b c, le a b = true → le b c = true → le a c = true) :
    ∀ l : List α, (sortByLe le l).Pairwise (fun a b => le a b = true)
  | [] => List.Pairwise.nil
  | x :: xs =>
    pairwise_insertLe le htot htrans x (sortByLe le xs)
      (pairwise_sortByLe le htot htrans xs)

/-! ## Lemmas: ratios and first-maximum selection -/

theorem ratioLt_iff (p q : Nat × Nat) (hp : 0 < p.2) (hq : 0 < q.2) :
    ratioLt p q = true ↔ ratioQ p < ratioQ q := by
  rw [ratioLt, decide_eq_true_eq, ratioQ, ratioQ,
    div_lt_div_iff₀ (by exact_mod_cast hp) (by exact_mod_cast hq)]
  exact_mod_cast Iff.rfl

theorem ratioLt_false (p q : Nat × Nat) (hp : 0 < p.2) (hq : 0 < q.2)
    (h : ratioLt p q = false) : ratioQ q ≤ ratioQ p := by
  rw [← not_lt]
  intro hcon
  rw [← ratioLt_iff p q hp hq] at hcon
  rw [h] at hcon
  exact Bool.false_ne_true hcon

theorem pickMaxBy_ratio_spec {α : Type} (f : α → Nat × Nat) :
    ∀ (l : List α) (b : α), 0 < (f b).2 → (∀ y ∈ l, 0 < (f y).2) →
      (pickMaxBy (fun a c => ratioLt (f a) (f c)) b l = b ∨
        pickMaxBy (fun a c => ratioLt (f a) (f c)) b l ∈ l) ∧
      ratioQ (f b) ≤
        ratioQ (f (pickMaxBy (fun a c => ratioLt (f a) (f c)) b l)) ∧
      ∀ y ∈ l,
        ratioQ (f y) ≤
          ratioQ (f (pickMaxBy (fun a c => ratioLt (f a) (f c)) b l))
  | [], b, _, _ => ⟨Or.inl rfl, le_refl _, by simp⟩
  | y :: ys, b, hb, hl => by
    rw [pickMaxBy]
    have hypos : 0 < (f y).2 := hl y (List.mem_cons_self y ys)
    have hb'pos : 0 < (f (if ratioLt (f b) (f y) then y else b)).2 := by
      split_ifs
      · exact hypos
      · exact hb
    have hbb' :
        ratioQ (f b) ≤ ratioQ (f (if ratioLt (f b) (f y) then y else b)) := by
      split_ifs with h
      · exact le_of_lt ((ratioLt_iff _ _ hb hypos).mp h)
      · exact le_refl _
    have hyb' :
        ratioQ (f y) ≤ ratioQ (f (if ratioLt (f b) (f y) then y else b)) := by
      split_ifs with h
      · exact le_refl _
      · exact ratioLt_false _ _ hb hypos (Bool.eq_false_iff.mpr h)
    obtain ⟨hmem, hle, hall⟩ :=
      pickMaxBy_ratio_spec f ys (if ratioLt (f b) (f y) then y else b) hb'pos
        (fun z hz => hl z (List.mem_cons_of_mem _ hz))
    refine ⟨?_, hbb'.trans hle, ?_⟩
    · rcases hmem with h1 | h1
      · rw [h1]
        split_ifs with h2
        · exact Or.inr (List.mem_cons_self y ys)
        · exact Or.inl rfl
      · exact Or.inr (List.mem_cons_of_mem _ h1)
    · intro z hz
      rcases List.mem_cons.mp hz with h1 | h1
      · exact h1 ▸ (hyb'.trans hle)
      · exact hall z h1

theorem argmaxBy_ratio_spec {α : Type} (f : α → Nat × Nat) (l : List α)
    (m : α) (hl : ∀ y ∈ l, 0 < (f y).2) (h : argmaxBy ratioLt f l = some m) :
    m ∈ l ∧ ∀ y ∈ l, ratioQ (f y) ≤ ratioQ (f m) := by
  cases l with
  | nil => exact absurd h (by simp [argmaxBy])
  | cons x xs =>
    rw [argmaxBy] at h
    injection h with h1
    obtain ⟨hmem, hle, hall⟩ :=
      pickMaxBy_ratio_spec f xs x (hl x (List.mem_cons_self x xs))
        (fun z hz => hl z (List.mem_cons_of_mem _ hz))
    constructor
    · rw [← h1]
      rcases hmem with h2 | h2
      · rw [h2]
        exact List.mem_cons_self x xs
      · exact List.mem_cons_of_mem _ h2
    · intro y hy
      rw [← h1]
      rcases List.mem_cons.mp hy with h2 | h2
      · exact h2 ▸ hle
      · exact hall y h2

/-! ## Lemmas: counting -/

theorem countRec_pos_iff (p : Rec → Bool) (ds : List Rec) :
    0 < countRec p ds ↔ ∃ r ∈ ds, p r = true := by
  rw [countRec, List.length_pos]
  constructor
  · intro h
    rcases List.exists_mem_of_ne_nil _ h with ⟨r, hr⟩
    have := List.mem_filter.mp hr
    exact ⟨r, this.1, this.2⟩
  · intro ⟨r, hr, hp⟩ hcon
    have : r ∈ List.filter p ds := List.mem_filter.mpr ⟨hr, hp⟩
    rw [hcon] at this
    exact List.not_mem_nil r this

theorem countRec_eq_zero_iff (p : Rec → Bool) (ds : List Rec) :
    countRec p ds = 0 ↔ ∀ r ∈ ds, p r = false := by
  constructor
  · intro h r hr
    by_contra hcon
    have hp : p r = true := by
      cases hpr : p r
      · exact absurd hpr hcon
      · rfl
    have hpos := (countRec_pos_iff p ds).mpr ⟨r, hr, hp⟩
    omega
  · intro h
    by_contra hcon
    have hpos : 0 < countRec p ds := Nat.pos_of_ne_zero hcon
    obtain ⟨r, hr, hp⟩ := (countRec_pos_iff p ds).mp hpos
    rw [h r hr] at hp
    exact Bool.false_ne_true hp

theorem countRec_mono (p q : Rec → Bool)
    (h : ∀ r, p r = true → q r = true) (ds : List Rec) :
    countRec p ds ≤ countRec q ds := by
  rw [countRec, countRec, ← List.countP_eq_length_filter,
    ← List.countP_eq_length_filter]
  exact List.countP_mono_left (fun a _ ha => h a ha)

/-! ## Lemmas: the regex search subsumes literal containment -/

theorem usaSearch_of_occurs (pat : List Char)
    (hp : ∀ l : List Char, pat.isPrefixOf l = true → usaRegexAt l = true) :
    ∀ l : List Char, occursIn pat l = true → usaSearch l = true
  | [], h => by
    rw [occursIn] at h
    have hpat : pat = [] := by simpa using h
    subst hpat
    have := hp [] rfl
    exact absurd this (by decide)
  | c :: t, h => by
    rw [occursIn] at h
    rw [usaSearch]
    rcases bor_elim h with h1 | h1
    · exact bor_left (hp _ h1)
    · exact bor_right (usaSearch_of_occurs pat hp t h1)

/-! ## Lemmas: floor division -/

theorem fdiv_ten_floor (n : Int) : Int.fdiv n 10 = ⌊(n : ℚ) / 10⌋ := by
  rw [Int.fdiv_eq_ediv _ (by norm_num)]
  symm
  rw [Int.floor_eq_iff]
  have hq := Int.emod_add_ediv n 10
  have h1 : (0:ℤ) ≤ n % 10 := Int.emod_nonneg n (by norm_num)
  have h2 : n % 10 < 10 := Int.emod_lt_of_pos n (by norm_num)
  have hcast : ((n % 10 : ℤ) : ℚ) + 10 * ((n / 10 : ℤ) : ℚ) = (n : ℚ) := by
    exact_mod_cast congrArg (fun z : ℤ => (z : ℚ)) hq
  have h1q : (0:ℚ) ≤ ((n % 10 : ℤ) : ℚ) := by exact_mod_cast h1
  have h2q : ((n % 10 : ℤ) : ℚ) < 10 := by exact_mod_cast h2
  constructor
  · rw [le_div_iff₀ (by norm_num : (0:ℚ) < 10)]
    linarith
  · rw [div_lt_iff₀ (by norm_num : (0:ℚ) < 10)]
    linarith

/-! ## Concrete example inputs used by counterexamples and witnesses -/

/-- A small well-formed input table whose columns already carry the
canonical names. -/
def exW : PTable :=
  ⟨[("year", [Val.int 1905, Val.int 1999]),
    ("full_name", [Val.str " Marie Curie ", Val.str "John Bardeen"]),
    ("sex", [Val.str "Female", Val.null]),
    ("birth_country", [Val.str "Poland", Val.null]),
    ("category", [Val.str "Physics", Val.str "Physics"])]⟩

/-- The normalized table `pipeline exW` produces. -/
def exWT : PTable :=
  ⟨[("year", [Val.int 1905, Val.int 1999]),
    ("full_name", [Val.str "Marie Curie", Val.str "John Bardeen"]),
    ("sex", [Val.str "female", Val.str "unknown"]),
    ("birth_country", [Val.str "Poland", Val.str "Unknown"]),
    ("category", [Val.str "Physics", Val.str "Physics"]),
    ("decade", [Val.int 1900, Val.int 1990])]⟩

/-- An input with a directly mapped `full_name` AND discrete
`givenName`/`familyName` columns. -/
def exOverwrite : PTable :=
  ⟨[("year", [Val.int 1950]),
    ("full_name", [Val.str "X Y"]),
    ("givenName", [Val.str "A"]), ("familyName", [Val.str "B"]),
    ("sex", [Val.str "Male"]),
    ("birth_country", [Val.str "France"]),
    ("category", [Val.str "Physics"])]⟩

/-- The normalized table `pipeline exOverwrite` produces. -/
def exOT : PTable :=
  ⟨[("year", [Val.int 1950]),
    ("full_name", [Val.str "A B"]),
    ("givenName", [Val.str "A"]), ("familyName", [Val.str "B"]),
    ("sex", [Val.str "male"]),
    ("birth_country", [Val.str "France"]),
    ("category", [Val.str "Physics"]),
    ("decade", [Val.int 1950])]⟩

/-- An input lacking every alias of `sex` (all other essential fields
present and populated). -/
def exNoSex : PTable :=
  ⟨[("year", [Val.int 1901]),
    ("full_name", [Val.str "A"]),
    ("birth_country", [Val.str "France"]),
    ("category", [Val.str "Physics"])]⟩

/-- An input lacking every alias of `category`. -/
def exNoCat : PTable :=
  ⟨[("year", [Val.int 1901]), ("full_name", [Val.str "A"]),
    ("sex", [Val.str "male"]), ("birth_country", [Val.str "France"])]⟩

def isOkE {ε α : Type} : Except ε α → Bool
  | .ok _ => true
  | .error _ => false

/-- The full_name column of a pipeline result (for stating outcomes). -/
def fullNameOf (e : Except (List String) PTable) : Option (List Val) :=
  match e with
  | .ok t => t.find? "full_name"
  | .error _ => none

/-! ## Claims -/

/-- Claim C9: for every record of the normalized table, the derived `decade`
column is the `year` column mapped through `decadeVal`, and on integer
years `decadeVal` computes exactly `floor(year / 10) * 10` (stated with
the mathematical floor over ℚ; `Int.fdiv` is the embedding of Python's
`//`). -/
theorem C9_decade_derivation (df t : PTable) (h : pipeline df = Except.ok t) :
    ∃ ycol, t.find? "year" = some ycol
      ∧ t.find? "decade" = some (ycol.map decadeVal)
      ∧ ∀ n : Int, decadeVal (Val.int n) = Val.int (⌊(n : ℚ) / 10⌋ * 10) := by
  obtain ⟨ht, hmiss⟩ := pipeline_ok_inv df t h
  clear h
  rw [ht]
  have hyear : (normStage df).find? "year" =
      some (pickCol df ["year", "year_award", "awardYear", "Year",
        "prizeYear"]) := by
    rw [normStage, find?_nameStep_ne _ _ (by decide),
      find?_sexStep_ne _ _ (by decide), find?_mc_year]
  refine ⟨pickCol df ["year", "year_award", "awardYear", "Year",
    "prizeYear"], ?_, ?_, ?_⟩
  · rw [find?_countryStep_ne _ _ (by decide),
      find?_decadeStep_ne _ _ (by decide), hyear]
  · rw [find?_countryStep_ne _ _ (by decide), find?_decadeStep_decade, hyear]
    rfl
  · intro n
    show Val.int (Int.fdiv n 10 * 10) = Val.int (⌊(n : ℚ) / 10⌋ * 10)
    rw [fdiv_ten_floor]

/-- Witness for C9 at a concrete input: years 1905 and 1999 produce
decades 1900 and 1990. -/
theorem C9_witness :
    (∃ ycol, exWT.find? "year" = some ycol
      ∧ exWT.find? "decade" = some (ycol.map decadeVal)
      ∧ ∀ n : Int, decadeVal (Val.int n) = Val.int (⌊(n : ℚ) / 10⌋ * 10))
    ∧ exWT.find? "decade" = some [Val.int 1900, Val.int 1990] :=
  ⟨C9_decade_derivation exW exWT rfl, by decide⟩

theorem find?_normStage_sex (df : PTable) :
    (normStage df).find? "sex" =
      some ((pickCol df ["sex", "gender", "Sex", "Gender"]).map sexNormVal) := by
  rw [normStage, find?_nameStep_ne _ _ (by decide)]
  have hmc := find?_mc_sex df
  have hhas : (map_columns df).hasCol "sex" = true := hasCol_of_find? _ _ _ hmc
  rw [find?_sexStep_sex _ hhas, hmc]
  rfl

theorem allNullCol_eq_of_find? (t : PTable) (c : String) (col : List Val)
    (h : t.find? c = some col) : allNullCol t c = allNull col := by
  rw [allNullCol, h]

/-- Claim C8: in the normalized table every `sex` cell is a non-null string
containing no uppercase ASCII letter, every `birth_country` cell is a
non-null string, and the normalizers turn a null source cell into the
literals `"unknown"` and `"Unknown"` respectively. (The aggregation
embedding consumes the table purely, which models its read-only use after
normalization.) -/
theorem C8_sex_country_invariant (df t : PTable)
    (h : pipeline df = Except.ok t) :
    (∃ scol, t.find? "sex" = some scol ∧
      ∀ v ∈ scol, ∃ s, v = Val.str s ∧ isLowerStr s = true)
    ∧ (∃ bcol, t.find? "birth_country" = some bcol ∧
      ∀ v ∈ bcol, ∃ s, v = Val.str s)
    ∧ sexNormVal Val.null = Val.str "unknown"
    ∧ countryNormVal Val.null = Val.str "Unknown" := by
  obtain ⟨ht, hmiss⟩ := pipeline_ok_inv df t h
  clear h
  rw [ht]
  refine ⟨⟨(pickCol df ["sex", "gender", "Sex", "Gender"]).map sexNormVal,
      ?_, ?_⟩,
    ⟨(((decadeStep (normStage df)).find? "birth_country").getD []).map
        countryNormVal, find?_countryStep_bc _, ?_⟩, rfl, rfl⟩
  · rw [find?_countryStep_ne _ _ (by decide),
      find?_decadeStep_ne _ _ (by decide), find?_normStage_sex]
  · intro v hv
    obtain ⟨u, _, huv⟩ := List.mem_map.mp hv
    cases u with
    | str s =>
      refine ⟨strLower s, ?_, isLowerStr_strLower s⟩
      rw [← huv]
      rfl
    | int n =>
      refine ⟨"unknown", ?_, by decide⟩
      rw [← huv]
      rfl
    | null =>
      refine ⟨"unknown", ?_, by decide⟩
      rw [← huv]
      rfl
  · intro v hv
    obtain ⟨u, _, huv⟩ := List.mem_map.mp hv
    cases u with
    | str s => exact ⟨s, by rw [← huv]; rfl⟩
    | int n => exact ⟨toString n, by rw [← huv]; rfl⟩
    | null => exact ⟨"Unknown", by rw [← huv]; rfl⟩

/-- Witness for C8 at a concrete input (one null sex cell, one null
birth-country cell). -/
theorem C8_witness :
    (∃ scol, exWT.find? "sex" = some scol ∧
      ∀ v ∈ scol, ∃ s, v = Val.str s ∧ isLowerStr s = true)
    ∧ (∃ bcol, exWT.find? "birth_country" = some bcol ∧
      ∀ v ∈ bcol, ∃ s, v = Val.str s)
    ∧ sexNormVal Val.null = Val.str "unknown"
    ∧ countryNormVal Val.null = Val.str "Unknown" :=
  C8_sex_country_invariant exW exWT rfl

/-- Claim C10: when every alias of `sex` is absent but the other four
essential fields are populated (and the table is nonempty), the pipeline
does NOT abort — the synthesized sex column is all `"unknown"` before the
essential-column check runs — and every record's sex is `"unknown"`. -/
theorem C10_missing_sex_ok (df : PTable)
    (h1 : (["sex", "gender", "Sex", "Gender"].all
      (fun a => !df.hasCol a)) = true)
    (h2 : (["year", "full_name", "birth_country", "category"].all
      (fun c => !allNullCol (normStage df) c)) = true)
    (h3 : 0 < df.nrows) :
    pipeline df = Except.ok (countryStep (decadeStep (normStage df)))
    ∧ (countryStep (decadeStep (normStage df))).find? "sex" =
        some (List.replicate df.nrows (Val.str "unknown")) := by
  have hfind : (["sex", "gender", "Sex", "Gender"].find?
      (fun v => df.hasCol v)) = none := by
    rw [List.find?_eq_none]
    intro v hv
    have hx := (List.all_eq_true.mp h1) v hv
    simp only [Bool.not_eq_true'] at hx
    simp [hx]
  have hpick : pickCol df ["sex", "gender", "Sex", "Gender"] =
      List.replicate df.nrows Val.null := by
    rw [pickCol, hfind]
  have hsexcol : (normStage df).find? "sex" =
      some (List.replicate df.nrows (Val.str "unknown")) := by
    rw [find?_normStage_sex, hpick, List.map_replicate]
    rfl
  have hsexok : allNullCol (normStage df) "sex" = false := by
    rw [allNullCol_eq_of_find? _ _ _ hsexcol, allNull]
    apply Bool.eq_false_iff.mpr
    intro hcon
    have hmem : Val.str "unknown" ∈
        List.replicate df.nrows (Val.str "unknown") :=
      List.mem_replicate.mpr ⟨Nat.pos_iff_ne_zero.mp h3, rfl⟩
    have := (List.all_eq_true.mp hcon) _ hmem
    simp at this
  have hmiss : missingOf (normStage df) = [] := by
    rw [missingOf, List.filter_eq_nil_iff]
    intro c hc
    fin_cases hc
    · have := (List.all_eq_true.mp h2) "year" (by decide)
      simp only [Bool.not_eq_true'] at this
      simp [this]
    · have := (List.all_eq_true.mp h2) "full_name" (by decide)
      simp only [Bool.not_eq_true'] at this
      simp [this]
    · simp [hsexok]
    · have := (List.all_eq_true.mp h2) "birth_country" (by decide)
      simp only [Bool.not_eq_true'] at this
      simp [this]
    · have := (List.all_eq_true.mp h2) "category" (by decide)
      simp only [Bool.not_eq_true'] at this
      simp [this]
  refine ⟨pipeline_of_complete df hmiss, ?_⟩
  rw [find?_countryStep_ne _ _ (by decide),
    find?_decadeStep_ne _ _ (by decide), hsexcol]

/-- Witness for C10: a concrete input with no sex alias flows through and
gets sex `"unknown"` everywhere. -/
theorem C10_witness :
    pipeline exNoSex =
      Except.ok (countryStep (decadeStep (normStage exNoSex)))
    ∧ (countryStep (decadeStep (normStage exNoSex))).find? "sex" =
        some (List.replicate exNoSex.nrows (Val.str "unknown")) :=
  C10_missing_sex_ok exNoSex (by decide) (by decide) (by decide)

/-- Claim C1 counterexample: the claim says an input lacking every alias of
any one of the five essential fields aborts; but `exNoSex` lacks every
alias of `sex` and the pipeline succeeds (sex is pre-filled with
`"unknown"` before the check). -/
theorem C1_counterexample :
    (["sex", "gender", "Sex", "Gender"].all
      (fun a => !exNoSex.hasCol a)) = true
    ∧ isOkE (pipeline exNoSex) = true := by decide

/-- Claim C1 as amended: after normalization, if an essential field is
entirely null across the dataset the pipeline aborts with a validation
error naming exactly the all-null essential fields (no result table is
produced); in particular an input lacking every alias of `category`
aborts naming `category`. (The sex field can never be all-null at the
check; see the counterexample and C10.) -/
theorem C1_essential_abort (df : PTable) (c : String) :
    (c ∈ essential → allNullCol (normStage df) c = true →
      pipeline df = Except.error (missingOf (normStage df))
      ∧ c ∈ missingOf (normStage df)
      ∧ ∀ x ∈ missingOf (normStage df), allNullCol (normStage df) x = true)
    ∧ ((["category", "prize_category", "Category", "discipline"].all
        (fun a => !df.hasCol a)) = true →
      pipeline df = Except.error (missingOf (normStage df))
      ∧ "category" ∈ missingOf (normStage df)) := by
  have hmain : ∀ c2 ∈ essential, allNullCol (normStage df) c2 = true →
      pipeline df = Except.error (missingOf (normStage df))
      ∧ c2 ∈ missingOf (normStage df)
      ∧ ∀ x ∈ missingOf (normStage df),
          allNullCol (normStage df) x = true := by
    intro c2 hc hnull
    have hmem : c2 ∈ missingOf (normStage df) := by
      rw [missingOf]
      exact List.mem_filter.mpr ⟨hc, hnull⟩
    refine ⟨pipeline_of_missing df (List.ne_nil_of_mem hmem), hmem, ?_⟩
    intro x hx
    exact (List.mem_filter.mp hx).2
  constructor
  · intro hc hnull
    exact hmain c hc hnull
  · intro hcat
    have hfind : (["category", "prize_category", "Category",
        "discipline"].find? (fun v => df.hasCol v)) = none := by
      rw [List.find?_eq_none]
      intro v hv
      have hx := (List.all_eq_true.mp hcat) v hv
      simp only [Bool.not_eq_true'] at hx
      simp [hx]
    have hcatcol : (normStage df).find? "category" =
        some (List.replicate df.nrows Val.null) := by
      rw [normStage, find?_nameStep_ne _ _ (by decide),
        find?_sexStep_ne _ _ (by decide), find?_mc_category, pickCol, hfind]
    have hnull : allNullCol (normStage df) "category" = true := by
      rw [allNullCol_eq_of_find? _ _ _ hcatcol, allNull, List.all_eq_true]
      intro v hv
      have := (List.mem_replicate.mp hv).2
      simp [this]
    obtain ⟨ha, hb, _⟩ := hmain "category" (by decide) hnull
    exact ⟨ha, hb⟩

/-- Witness for C1 (amended): the input lacking every `category` alias
aborts with an error naming `category`. -/
theorem C1_witness :
    pipeline exNoCat = Except.error (missingOf (normStage exNoCat))
    ∧ "category" ∈ missingOf (normStage exNoCat) :=
  (C1_essential_abort exNoCat "category").2 (by decide)

/-- The full_name column the script's normalization produces, expressed
directly over the raw table: synthesis from `givenName`/`familyName`
(first priority) or `firstname`/`surname` (second priority) OVERWRITES
any directly mapped value; only when neither pair exists does the
directly mapped alias column survive; the result is stripped. -/
def fullNameExpected (df : PTable) : List Val :=
  (if df.hasCol "givenName" && df.hasCol "familyName" then
    combineNames ((df.find? "givenName").getD [])
      ((df.find? "familyName").getD [])
  else if df.hasCol "firstname" && df.hasCol "surname" then
    combineNames ((df.find? "firstname").getD [])
      ((df.find? "surname").getD [])
  else pickCol df ["full_name", "name", "laureate_name", "Full Name",
    "firstname", "surname"]).map stripVal

/-- Claim C4 counterexample: the claim says a `full_name` already populated
by direct alias mapping is left as mapped; but on `exOverwrite` the
mapped column is `["X Y"]` and the pipeline output is `["A B"]` — the
synthesis from `givenName`/`familyName` overwrites the mapped value. -/
theorem C4_counterexample :
    pickCol exOverwrite ["full_name", "name", "laureate_name", "Full Name",
      "firstname", "surname"] = [Val.str "X Y"]
    ∧ fullNameOf (pipeline exOverwrite) = some [Val.str "A B"] := by decide

/-- Claim C4 as amended: whenever discrete first/last name columns exist
(`givenName`/`familyName` first, else `firstname`/`surname`), `full_name`
is their concatenation with a single space, a missing half read as the
empty string, stripped — REGARDLESS of whether `full_name` was already
populated by direct mapping; the mapped value survives (stripped) only
when neither pair of discrete name columns exists. -/
theorem C4_full_name (df t : PTable) (h : pipeline df = Except.ok t) :
    t.find? "full_name" = some (fullNameExpected df) := by
  obtain ⟨ht, hmiss⟩ := pipeline_ok_inv df t h
  clear h
  have hbase : nameBase (sexStep (map_columns df)) =
      (if df.hasCol "givenName" && df.hasCol "familyName" then
        combineNames ((df.find? "givenName").getD [])
          ((df.find? "familyName").getD [])
      else if df.hasCol "firstname" && df.hasCol "surname" then
        combineNames ((df.find? "firstname").getD [])
          ((df.find? "surname").getD [])
      else pickCol df ["full_name", "name", "laureate_name", "Full Name",
        "firstname", "surname"]) := by
    rw [nameBase]
    rw [hasCol_sexStep_ne _ _ (by decide),
    hasCol_mc_other df "givenName" (by decide) (by decide) (by decide)
      (by decide) (by decide),
    hasCol_sexStep_ne _ _ (by decide),
    hasCol_mc_other df "familyName" (by decide) (by decide) (by decide)
      (by decide) (by decide),
    hasCol_sexStep_ne _ _ (by decide),
    hasCol_mc_other df "firstname" (by decide) (by decide) (by decide)
      (by decide) (by decide),
    hasCol_sexStep_ne _ _ (by decide),
    hasCol_mc_other df "surname" (by decide) (by decide) (by decide)
      (by decide) (by decide),
    find?_sexStep_ne _ _ (by decide),
    find?_mc_other df "givenName" (by decide) (by decide) (by decide)
      (by decide) (by decide),
    find?_sexStep_ne _ _ (by decide),
    find?_mc_other df "familyName" (by decide) (by decide) (by decide)
      (by decide) (by decide),
    find?_sexStep_ne _ _ (by decide),
    find?_mc_other df "firstname" (by decide) (by decide) (by decide)
      (by decide) (by decide),
    find?_sexStep_ne _ _ (by decide),
    find?_mc_other df "surname" (by decide) (by decide) (by decide)
      (by decide) (by decide),
    find?_sexStep_ne _ _ (by decide), find?_mc_full_name]
    rfl
  rw [ht, find?_countryStep_ne _ _ (by decide),
    find?_decadeStep_ne _ _ (by decide), normStage, find?_nameStep_full,
    hbase, fullNameExpected]

/-- Witness for C4 (amended) at the overwrite example. -/
theorem C4_witness :
    exOT.find? "full_name" = some (fullNameExpected exOverwrite)
    ∧ fullNameExpected exOverwrite = [Val.str "A B"] :=
  ⟨C4_full_name exOverwrite exOT rfl, by decide⟩

/-- Claim C5 counterexample: `"Russian Federation"` is classified USA-born
by the code (the `U.S.A.` branch of the pattern is a regex in which `.`
matches any character, and `rUsSiAn` fits `u.s.a.` case-insensitively),
yet it contains none of the four literal substrings — refuting "no other
birth_country values are classified USA-born". -/
theorem C5_counterexample :
    usaBorn "Russian Federation" = true
    ∧ specUsaBorn "Russian Federation" = false := by decide

theorem usaRegexAt_of_united (l : List Char)
    (h : ("united states".data).isPrefixOf l = true) : usaRegexAt l = true := by
  simp [usaRegexAt, h]

theorem usaRegexAt_of_usa (l : List Char)
    (h : ("usa".data).isPrefixOf l = true) : usaRegexAt l = true := by
  simp [usaRegexAt, h]

theorem usaRegexAt_of_america (l : List Char)
    (h : ("america".data).isPrefixOf l = true) : usaRegexAt l = true := by
  simp [usaRegexAt, h]

theorem usaRegexAt_of_dots (l : List Char)
    (h : ("u.s.a.".data).isPrefixOf l = true) : usaRegexAt l = true := by
  rcases l with _ | ⟨c0, _ | ⟨c1, _ | ⟨c2, _ | ⟨c3, _ | ⟨c4, _ | ⟨c5, rest⟩⟩⟩⟩⟩⟩
  · exact absurd h (by decide)
  · simp [List.isPrefixOf] at h
  · simp [List.isPrefixOf] at h
  · simp [List.isPrefixOf] at h
  · simp [List.isPrefixOf] at h
  · simp [List.isPrefixOf] at h
  · simp [List.isPrefixOf] at h
    obtain ⟨rfl, rfl, rfl, rfl, rfl, rfl⟩ := h
    rfl

/-- Claim C5 as amended: classification uses the PATTERN
`United States|USA|America|U.S.A.` as a case-insensitive regular
expression in which `.` matches any character except newline; every value
case-insensitively containing one of the literal substrings is therefore
classified USA-born, but the `U.S.A.` branch additionally matches any
`u·s·a·` character pattern (see the counterexample). -/
theorem C5_usa_regex (s : String) (h : specUsaBorn s = true) :
    usaBorn s = true := by
  rw [specUsaBorn] at h
  rw [usaBorn]
  rcases bor_elim h with h1 | h1
  · rcases bor_elim h1 with h2 | h2
    · rcases bor_elim h2 with h3 | h3
      · rw [containsCI] at h3
        exact usaSearch_of_occurs _ usaRegexAt_of_united _ h3
      · rw [containsCI] at h3
        exact usaSearch_of_occurs _ usaRegexAt_of_usa _ h3
    · rw [containsCI] at h2
      exact usaSearch_of_occurs _ usaRegexAt_of_america _ h2
  · rw [containsCI] at h1
    exact usaSearch_of_occurs _ usaRegexAt_of_dots _ h1

/-- Witness for C5 (amended): a literal `U.S.A.` value is classified. -/
theorem C5_witness : usaBorn "born in the U.S.A." = true :=
  C5_usa_regex "born in the U.S.A." (by decide)

theorem mem_decadesOf (ds : List Rec) (d : Int) :
    d ∈ decadesOf ds ↔ ∃ r ∈ ds, r.decade = d := by
  rw [decadesOf, mem_sortByLe, mem_uniqueFirst]
  constructor
  · intro h
    obtain ⟨r, hr, hrd⟩ := List.mem_map.mp h
    exact ⟨r, hr, hrd⟩
  · intro h
    obtain ⟨r, hr, hrd⟩ := h
    exact List.mem_map.mpr ⟨r, hr, hrd⟩

theorem decTotal_pos (ds : List Rec) (d : Int) (h : d ∈ decadesOf ds) :
    0 < decTotal ds d := by
  rw [decTotal, countRec_pos_iff]
  obtain ⟨r, hr, hrd⟩ := (mem_decadesOf ds d).mp h
  exact ⟨r, hr, by simp [hrd]⟩

/-- Claim C6: for every decade present in the dataset the USA-born ratio is
(USA-born count)/(total count), lies in [0, 1], and is exactly 0 when the
decade has no USA-born record (the aligned division yields `NaN` there
and `fillna(0)` makes it 0, not a missing entry); and whenever the query
reports a decade, that decade is present and attains the maximum ratio. -/
theorem C6_usa_ratio (ds : List Rec) (d : Int) :
    (d ∈ decadesOf ds →
      0 < decTotal ds d
      ∧ usaRatioQ ds d = (decUsa ds d : ℚ) / (decTotal ds d : ℚ)
      ∧ 0 ≤ usaRatioQ ds d ∧ usaRatioQ ds d ≤ 1
      ∧ (decUsa ds d = 0 → usaRatioQ ds d = 0))
    ∧ (∀ m, maxDecadeUsa ds = some m →
      m ∈ decadesOf ds ∧
        ∀ e ∈ decadesOf ds, usaRatioQ ds e ≤ usaRatioQ ds m) := by
  have hratio : ∀ e : Int, usaRatioQ ds e = ratioQ (usaPair ds e) := by
    intro e
    rw [usaRatioQ, ratioQ, usaPair]
    split_ifs with h0
    · rw [h0]
      simp
    · rfl
  constructor
  · intro hd
    have hpos := decTotal_pos ds d hd
    have hposQ : (0 : ℚ) < (decTotal ds d : ℚ) := by exact_mod_cast hpos
    have hle : decUsa ds d ≤ decTotal ds d := by
      rw [decUsa, decTotal]
      apply countRec_mono
      intro r hr
      exact (band_elim hr).2
    refine ⟨hpos, ?_, ?_, ?_, ?_⟩
    · rw [hratio]
      rfl
    · rw [hratio, ratioQ]
      apply div_nonneg
      · exact Nat.cast_nonneg _
      · exact Nat.cast_nonneg _
    · rw [hratio, ratioQ]
      show (decUsa ds d : ℚ) / (decTotal ds d : ℚ) ≤ 1
      rw [div_le_one hposQ]
      exact_mod_cast hle
    · intro h0
      rw [usaRatioQ, if_pos h0]
  · intro m hm
    rw [maxDecadeUsa] at hm
    by_cases hempty : (usaRecs ds).isEmpty = true
    · rw [if_pos hempty] at hm
      exact Option.noConfusion hm
    · rw [if_neg hempty] at hm
      have hden : ∀ y ∈ decadesOf ds, 0 < (usaPair ds y).2 :=
        fun y hy => decTotal_pos ds y hy
      obtain ⟨hmem, hall⟩ :=
        argmaxBy_ratio_spec (usaPair ds) (decadesOf ds) m hden hm
      refine ⟨hmem, fun e he => ?_⟩
      rw [hratio, hratio]
      exact hall e he

/-- A three-record dataset: decade 1900 has one of two records USA-born,
decade 1910 has none. -/
def exUsa : List Rec :=
  [⟨1901, "A", "male", "France", "Physics", 1900⟩,
   ⟨1905, "B", "male", "USA", "Physics", 1900⟩,
   ⟨1911, "C", "male", "France", "Physics", 1910⟩]

theorem mem_propIndexOf (ds : List Rec) (p : Int × String) :
    p ∈ propIndexOf ds ↔ ∃ r ∈ ds, (r.decade, r.category) = p := by
  rw [propIndexOf, mem_sortByLe, mem_uniqueFirst]
  constructor
  · intro h
    obtain ⟨r, hr, hrp⟩ := List.mem_map.mp h
    exact ⟨r, hr, hrp⟩
  · intro h
    obtain ⟨r, hr, hrp⟩ := h
    exact List.mem_map.mpr ⟨r, hr, hrp⟩

theorem pairCount_pos (ds : List Rec) (p : Int × String)
    (h : p ∈ propIndexOf ds) : 0 < pairCount ds p.1 p.2 := by
  rw [pairCount, countRec_pos_iff]
  obtain ⟨r, hr, hrp⟩ := (mem_propIndexOf ds p).mp h
  refine ⟨r, hr, ?_⟩
  have h1 : r.decade = p.1 := congrArg Prod.fst hrp
  have h2 : r.category = p.2 := congrArg Prod.snd hrp
  simp [h1, h2]

theorem femCount_zero (ds : List Rec) (p : Int × String)
    (h : (femIndex ds).contains p = false) : femCount ds p.1 p.2 = 0 := by
  rw [femCount, countRec_eq_zero_iff]
  intro r hr
  by_contra hcon
  have hp : (r.sex == "female" && r.decade == p.1 && r.category == p.2)
      = true := by
    cases hx : (r.sex == "female" && r.decade == p.1 && r.category == p.2)
    · exact absurd hx hcon
    · rfl
  obtain ⟨hx, hcat⟩ := band_elim hp
  obtain ⟨hsex, hdec⟩ := band_elim hx
  have hrf : r ∈ femaleRecs ds := List.mem_filter.mpr ⟨hr, hsex⟩
  have hpair : (r.decade, r.category) = p := by
    rw [beq_iff_eq.mp hdec, beq_iff_eq.mp hcat]
  have hmem : p ∈ femIndex ds := by
    rw [femIndex, mem_uniqueFirst]
    exact List.mem_map.mpr ⟨r, hrf, hpair⟩
  rw [← List.elem_iff] at hmem
  have hc2 : (femIndex ds).contains p = true := hmem
  rw [hc2] at h
  exact Bool.noConfusion h

theorem propQ_eq_div (ds : List Rec) (p : Int × String) :
    propQ ds p =
      (femCount ds p.1 p.2 : ℚ) / (pairCount ds p.1 p.2 : ℚ) := by
  rw [propQ]
  split_ifs with hc
  · rfl
  · have h0 : femCount ds p.1 p.2 = 0 :=
      femCount_zero ds p (Bool.eq_false_iff.mpr hc)
    rw [h0]
    simp

theorem propQ_eq_pair (ds : List Rec) (p : Int × String) :
    propQ ds p = ratioQ (propPair ds p) := by
  rw [propQ, propPair, ratioQ]
  split_ifs with hc
  · rfl
  · simp

/-- Claim C3: every (decade, category) pair in the proportion index has at
least one record and its proportion is (female count)/(total count)
(pairs absent from the female index get the `fillna(0)` value 0, which
equals 0/total); pairs with zero records are excluded from the index; and
a reported maximum pair belongs to the index and attains the maximum
proportion. -/
theorem C3_female_proportion (ds : List Rec) (p : Int × String) :
    (p ∈ propIndexOf ds →
      0 < pairCount ds p.1 p.2
      ∧ propQ ds p =
          (femCount ds p.1 p.2 : ℚ) / (pairCount ds p.1 p.2 : ℚ))
    ∧ (pairCount ds p.1 p.2 = 0 → p ∉ propIndexOf ds)
    ∧ (∀ q, maxFemalePair ds = some q →
      q ∈ propIndexOf ds ∧
        ∀ p2 ∈ propIndexOf ds, propQ ds p2 ≤ propQ ds q) := by
  refine ⟨?_, ?_, ?_⟩
  · intro h
    exact ⟨pairCount_pos ds p h, propQ_eq_div ds p⟩
  · intro h0 hmem
    have := pairCount_pos ds p hmem
    omega
  · intro q hq
    rw [maxFemalePair] at hq
    by_cases hempty : (femaleRecs ds).isEmpty = true
    · rw [if_pos hempty] at hq
      exact Option.noConfusion hq
    · rw [if_neg hempty] at hq
      have hden : ∀ y ∈ propIndexOf ds, 0 < (propPair ds y).2 :=
        fun y hy => pairCount_pos ds y hy
      obtain ⟨hmem, hall⟩ :=
        argmaxBy_ratio_spec (propPair ds) (propIndexOf ds) q hden hq
      refine ⟨hmem, fun p2 hp2 => ?_⟩
      rw [propQ_eq_pair, propQ_eq_pair]
      exact hall p2 hp2

/-- A dataset with one female record: pair (1900, Physics) has female
proportion 1/2, pair (1900, Chemistry) has proportion 0. -/
def exFem : List Rec :=
  [⟨1901, "A", "male", "France", "Physics", 1900⟩,
   ⟨1903, "M", "female", "Poland", "Physics", 1900⟩,
   ⟨1905, "B", "male", "France", "Chemistry", 1900⟩]

/-- Witness for C3 at `exFem`: the pair (1900, Physics) is in the index
and is the reported maximum. -/
theorem C3_witness :
    (0 < pairCount exFem 1900 "Physics"
      ∧ propQ exFem (1900, "Physics") =
          (femCount exFem 1900 "Physics" : ℚ) /
            (pairCount exFem 1900 "Physics" : ℚ))
    ∧ ((1900, "Physics") ∈ propIndexOf exFem ∧
        ∀ p2 ∈ propIndexOf exFem,
          propQ exFem p2 ≤ propQ exFem (1900, "Physics")) :=
  ⟨(C3_female_proportion exFem (1900, "Physics")).1 (by decide),
   (C3_female_proportion exFem (1900, "Physics")).2.2 (1900, "Physics")
     (by decide)⟩

/-- Witness for C6 at `exUsa`: decade 1900 is present and is the
reported maximum. -/
theorem C6_witness :
    (0 < decTotal exUsa 1900
      ∧ usaRatioQ exUsa 1900 =
          (decUsa exUsa 1900 : ℚ) / (decTotal exUsa 1900 : ℚ)
      ∧ 0 ≤ usaRatioQ exUsa 1900 ∧ usaRatioQ exUsa 1900 ≤ 1
      ∧ (decUsa exUsa 1900 = 0 → usaRatioQ exUsa 1900 = 0))
    ∧ (1900 ∈ decadesOf exUsa ∧
        ∀ e ∈ decadesOf exUsa, usaRatioQ exUsa e ≤ usaRatioQ exUsa 1900) :=
  ⟨(C6_usa_ratio exUsa 1900).1 (by decide),
   (C6_usa_ratio exUsa 1900).2 1900 (by decide)⟩

theorem map_const_replicate {α β : Type} (b : β) :
    ∀ l : List α, l.map (fun _ => b) = List.replicate l.length b
  | [] => rfl
  | x :: xs => by
    rw [List.map_cons, map_const_replicate b xs, List.length_cons,
      List.replicate_succ]

/-- Claim C7: two independent empty-subset sentinels. For ANY input with
zero USA-born records the USA query degrades to the `None` sentinel; for
ANY input with zero female records (regardless of its USA-born content)
the first-woman lookup yields the `"Unknown"` sentinels and the heatmap
matrix is the all-zero matrix of shape (unique decades × unique
categories). All aggregations are embedded as TOTAL functions of the
record list, which models that only the essential-column validation (the
sole `Except.error` of `pipeline`) can abort the run. -/
theorem C7_empty_subsets (ds : List Rec) :
    (usaRecs ds = [] → maxDecadeUsa ds = none)
    ∧ (femaleRecs ds = [] →
        firstWoman ds = ("Unknown", "Unknown")
        ∧ propDF ds = List.replicate (uniqueDecades ds).length
            (List.replicate (uniqueCats ds).length (0 : ℚ))) := by
  constructor
  · intro hU
    have hUe : (usaRecs ds).isEmpty = true := by rw [hU]; rfl
    rw [maxDecadeUsa, if_pos hUe]
  · intro hF
    have hFe : (femaleRecs ds).isEmpty = true := by rw [hF]; rfl
    constructor
    · rw [firstWoman, hF]
      rfl
    · rw [propDF, if_pos hFe]
      rw [map_const_replicate, map_const_replicate]

/-- A dataset with one female non-USA-born record (its USA subset is
empty while its female subset is not). -/
def exFemOnly : List Rec :=
  [⟨1903, "M", "female", "Poland", "Physics", 1900⟩]

/-- A dataset with one male USA-born record (its female subset is empty
while its USA subset is not). -/
def exUsaOnly : List Rec := [⟨1901, "A", "male", "USA", "Physics", 1900⟩]

/-- Witness for C7, exercising the two sentinels independently: the USA
sentinel on an input that still has a female record, and the female
sentinels on an input that still has a USA-born record. -/
theorem C7_witness :
    maxDecadeUsa exFemOnly = none
    ∧ (firstWoman exUsaOnly = ("Unknown", "Unknown")
        ∧ propDF exUsaOnly = List.replicate (uniqueDecades exUsaOnly).length
            (List.replicate (uniqueCats exUsaOnly).length (0 : ℚ))) :=
  ⟨(C7_empty_subsets exFemOnly).1 (by decide),
   (C7_empty_subsets exUsaOnly).2 (by decide)⟩

/-! ## C2: repeat winners -/

theorem mem_namesOf (ds : List Rec) (n : String) :
    n ∈ namesOf ds ↔ ∃ r ∈ ds, r.full_name = n := by
  rw [namesOf]
  constructor
  · intro h
    obtain ⟨r, hr, hrn⟩ := List.mem_map.mp h
    exact ⟨r, hr, hrn⟩
  · intro h
    obtain ⟨r, hr, hrn⟩ := h
    exact List.mem_map.mpr ⟨r, hr, hrn⟩

theorem countName_pos_iff (ds : List Rec) (n : String) :
    0 < countName ds n ↔ n ∈ namesOf ds := by
  rw [countName, countRec_pos_iff, mem_namesOf]
  constructor
  · intro h
    obtain ⟨r, hr, hp⟩ := h
    exact ⟨r, hr, beq_iff_eq.mp hp⟩
  · intro h
    obtain ⟨r, hr, hrn⟩ := h
    exact ⟨r, hr, beq_iff_eq.mpr hrn⟩

theorem mem_nameCounts (ds : List Rec) (pr : String × Nat) :
    pr ∈ nameCounts ds ↔ (pr.1 ∈ namesOf ds ∧ pr.2 = countName ds pr.1) := by
  rw [nameCounts]
  constructor
  · intro h
    obtain ⟨n, hn, hpr⟩ := List.mem_map.mp h
    rw [← hpr]
    exact ⟨(mem_uniqueFirst n _).mp hn, rfl⟩
  · intro h
    apply List.mem_map.mpr
    refine ⟨pr.1, (mem_uniqueFirst _ _).mpr h.1, ?_⟩
    obtain ⟨n2, c2⟩ := pr
    simp only at h ⊢
    rw [← h.2]

theorem mem_repeatList_iff (ds : List Rec) (n : String) :
    n ∈ repeatList ds ↔ 1 < countName ds n := by
  rw [repeatList]
  constructor
  · intro h
    obtain ⟨pr, hpr, hn⟩ := List.mem_map.mp h
    have h2 := List.mem_filter.mp hpr
    have h3 : pr ∈ nameCounts ds := (mem_sortByLe _ _ _).mp h2.1
    obtain ⟨hmem, hcount⟩ := (mem_nameCounts ds pr).mp h3
    have hlt : 1 < pr.2 := of_decide_eq_true h2.2
    rw [hcount, hn] at hlt
    exact hlt
  · intro h
    have hmem : n ∈ namesOf ds := (countName_pos_iff ds n).mp (by omega)
    have h1 : (n, countName ds n) ∈ nameCounts ds :=
      (mem_nameCounts ds (n, countName ds n)).mpr ⟨hmem, rfl⟩
    have h2 : (n, countName ds n) ∈ valueCountsDesc ds :=
      (mem_sortByLe _ _ _).mpr h1
    apply List.mem_map.mpr
    exact ⟨(n, countName ds n),
      List.mem_filter.mpr ⟨h2, decide_eq_true h⟩, rfl⟩

theorem repeatList_sorted (ds : List Rec) :
    (repeatList ds).Pairwise (fun a b => countName ds b ≤ countName ds a) := by
  rw [repeatList]
  have hs : (valueCountsDesc ds).Pairwise
      (fun p q : String × Nat => (decide (q.2 ≤ p.2)) = true) := by
    apply pairwise_sortByLe
    · intro a b
      rcases Nat.le_total b.2 a.2 with h | h <;> simp [h]
    · intro a b c h1 h2
      exact decide_eq_true
        (le_trans (of_decide_eq_true h2) (of_decide_eq_true h1))
  have hs2 := hs.filter (fun p => decide (1 < p.2))
  have hs3 : ((valueCountsDesc ds).filter
      (fun p => decide (1 < p.2))).Pairwise
      (fun p q => countName ds q.1 ≤ countName ds p.1) := by
    refine hs2.imp_of_mem ?_
    intro a b ha hb hr
    have ha2 := (mem_nameCounts ds a).mp
      ((mem_sortByLe _ _ _).mp (List.mem_filter.mp ha).1)
    have hb2 := (mem_nameCounts ds b).mp
      ((mem_sortByLe _ _ _).mp (List.mem_filter.mp hb).1)
    rw [← ha2.2, ← hb2.2]
    exact of_decide_eq_true hr
  exact List.pairwise_map.mpr hs3

/-- The synthetic repeat-winner input of the claim: "A" wins in 1990
(Physics) and 2000 (Chemistry), "B" wins once. -/
def exRepeat : List Rec :=
  [⟨1990, "A", "male", "X", "Physics", 1990⟩,
   ⟨1985, "B", "male", "X", "Peace", 1980⟩,
   ⟨2000, "A", "male", "X", "Chemistry", 2000⟩]

/-- Claim C2: a name is in `repeat_list` iff it occurs in more than one
record; `repeat_list` is ordered by descending frequency; a winner's
reported years are the multiset of their years sorted ascending; the
reported categories are the distinct categories in first-occurrence
order (no duplicates, same membership, ordered by first occurrence in
the winner's category column); and on the synthetic input, A is the
sole repeat winner with years [1990, 2000] and categories
[Physics, Chemistry]. -/
theorem C2_repeat_winners (ds : List Rec) (n : String) :
    (n ∈ repeatList ds ↔ 1 < countName ds n)
    ∧ (repeatList ds).Pairwise (fun a b => countName ds b ≤ countName ds a)
    ∧ (yearsOf ds n).Pairwise (fun a b : Int => a ≤ b)
    ∧ (yearsOf ds n).Perm ((winnerRecs ds n).map (fun r => r.year))
    ∧ (catsOf ds n).Nodup
    ∧ (∀ c, c ∈ catsOf ds n ↔ c ∈ rawCatsOf ds n)
    ∧ (catsOf ds n).Pairwise
        (fun a b => (rawCatsOf ds n).indexOf a < (rawCatsOf ds n).indexOf b)
    ∧ (repeatList exRepeat = ["A"]
        ∧ yearsOf exRepeat "A" = [1990, 2000]
        ∧ catsOf exRepeat "A" = ["Physics", "Chemistry"]) := by
  refine ⟨mem_repeatList_iff ds n, repeatList_sorted ds, ?_, ?_, ?_, ?_, ?_,
    by decide, by decide, by decide⟩
  · have hs : (yearsOf ds n).Pairwise
        (fun a b : Int => (decide (a ≤ b)) = true) := by
      apply pairwise_sortByLe
      · intro a b
        rcases le_total a b with h | h <;> simp [h]
      · intro a b c h1 h2
        exact decide_eq_true
          (le_trans (of_decide_eq_true h1) (of_decide_eq_true h2))
    exact hs.imp (fun h => of_decide_eq_true h)
  · exact perm_sortByLe _ _
  · exact nodup_uniqueFirst _
  · intro c
    exact mem_uniqueFirst c _
  · exact pairwise_idx_uniqueFirst _

end Nobel
